import Mathlib

/-!
Verification of the pipCamera OSC streaming core against its specification.

The development shallowly embeds the C++ sources:
* `src/app/src/main/cpp/osc_sender.cpp`  (OSCSender)
* `src/osc_receiver/osc_receiver.cpp`    (OSCReceiver, OSCParser)
* `src/osc_receiver/audio_output.cpp`    (AudioOutput)

Machine floats are modelled as rationals; `snprintf` 3-decimal formatting
becomes exact decimal rounding on rationals, `std::stof` becomes a decimal
token parser returning finite rationals or the non-finite markers inf/nan.
Wire datagrams are modelled as `List Char`.
-/

abbrev Str := List Char

/-- Whitespace predicate used by `std::istringstream` token extraction
(`isspace` in the C locale). -/
def wsChar (c : Char) : Bool :=
  c = ' ' || c = '\t' || c = '\n' || c = '\x0b' || c = '\x0c' || c = '\r'

/-- Auxiliary tokenizer: accumulates the current (reversed) token while
scanning, emitting a token at each whitespace boundary.  This models the
repeated `iss >> token` extraction of `OSCParser::parseMessage`. -/
def tokensAux : Str → Str → List Str
  | [], acc => if acc = [] then [] else [acc.reverse]
  | c :: cs, acc =>
    if wsChar c then
      if acc = [] then tokensAux cs [] else acc.reverse :: tokensAux cs []
    else
      tokensAux cs (c :: acc)

/-- All whitespace-separated tokens of a wire string, in order. -/
def tokens (s : Str) : List Str := tokensAux s []

/-- One `iss >> token` step: skip leading whitespace, return the first
token together with the unread remainder of the stream. -/
def extractToken : Str → Option (Str × Str)
  | [] => none
  | c :: cs =>
    if wsChar c then extractToken cs
    else some ((c :: cs).takeWhile (fun d => !wsChar d),
               (c :: cs).dropWhile (fun d => !wsChar d))

/-- Decimal digit test (`isdigit` on the token characters). -/
def isDig (c : Char) : Bool := 48 ≤ c.toNat && c.toNat ≤ 57

/-- The value of a decimal digit character. -/
def digitVal (c : Char) : Nat := c.toNat - 48

/-- Value of a digit run, most significant first. -/
def digitsVal (l : Str) : Nat := l.foldl (fun a c => a * 10 + digitVal c) 0

/-- Optional sign at the head of a numeric token; returns
(negative?, rest). -/
def parseSign : Str → Bool × Str
  | [] => (false, [])
  | c :: cs =>
    if c = '-' then (true, cs)
    else if c = '+' then (false, cs)
    else (false, c :: cs)

/-- Case-insensitive prefix test, used for the `inf` / `nan` forms
accepted by `strtof`. -/
def startsWithCI : Str → Str → Bool
  | [], _ => true
  | _ :: _, [] => false
  | p :: ps, c :: cs => p.toLower == c.toLower && startsWithCI ps cs

/-- Optional exponent part of a `strtof` token: `e`/`E`, optional sign,
at least one digit; absent or incomplete exponents contribute 0 (strtof
backtracks to the mantissa). -/
def parseExp (s : Str) : Int :=
  match s with
  | c :: rest =>
    if c = 'e' || c = 'E' then
      let (en, r) := parseSign rest
      let eds := r.takeWhile isDig
      if eds = [] then 0
      else if en then -(digitsVal eds : Int) else (digitsVal eds : Int)
    else 0
  | [] => 0

/-- A parsed `float` value: finite (as an exact rational), infinite, or
nan.  `std::stof` accepts the non-finite spellings, so they can reach
`floatData`. -/
inductive FVal where
  | fin (q : ℚ)
  | inf (neg : Bool)
  | nan
deriving DecidableEq, Repr

/-- Largest finite single-precision magnitude; `strtof` overflow beyond it
raises ERANGE and `std::stof` then throws `out_of_range` (the token is
skipped by the caller).  Denormal-underflow ERANGE is not modelled. -/
def fltMax : ℚ := 340282346638528859811704183484516925440

/-- Model of `std::stof` on one whitespace-free token: parse the longest
valid numeric prefix (sign, digits, optional fraction, optional exponent,
or inf/nan); `none` when no conversion is possible or the value overflows.
Hexadecimal float literals are not modelled. -/
def stofF (s : Str) : Option FVal :=
  let (neg, s1) := parseSign s
  if startsWithCI ("inf".toList) s1 then some (.inf neg)
  else if startsWithCI ("nan".toList) s1 then some .nan
  else
    let ds := s1.takeWhile isDig
    let r1 := s1.dropWhile isDig
    let fr := match r1 with
      | '.' :: t => (t.takeWhile isDig, t.dropWhile isDig)
      | _ => (([] : Str), r1)
    let fs := fr.1
    let r2 := fr.2
    if ds.isEmpty && fs.isEmpty then none
    else
      let mant : ℚ := (digitsVal ds : ℚ) + (digitsVal fs : ℚ) / 10 ^ fs.length
      let e : Int := parseExp r2
      let v : ℚ := (if neg then -mant else mant) * (10 : ℚ) ^ e
      if fltMax < |v| then none else some (.fin v)

/-- Channel classification result of `OSCParser::getMessageType`. -/
inductive MessageType where
  | Audio
  | Text
  | Analysis
  | Unknown
deriving DecidableEq, Repr

/-- `address.find(pat) == 0` in the C++ source. -/
def strStartsWith (s pat : Str) : Bool := pat.isPrefixOf s

/-- `address.find(pat) != npos` in the C++ source. -/
def containsSub : Str → Str → Bool
  | [], pat => pat.isPrefixOf []
  | c :: cs, pat => pat.isPrefixOf (c :: cs) || containsSub cs pat

/-- The audio rule of `OSCParser::getMessageType` (the first `if`). -/
def audioCond (address : Str) : Bool :=
  strStartsWith address ("/chan1/audio".toList)
    || strStartsWith address ("/audio/".toList)
    || containsSub address ("audio".toList)

/-- The text rule of `OSCParser::getMessageType` (the second `if`). -/
def textCond (address : Str) : Bool :=
  strStartsWith address ("/chan2/text".toList)
    || strStartsWith address ("/text/".toList)
    || containsSub address ("text".toList)

/-- The analysis rule of `OSCParser::getMessageType` (the third `if`). -/
def anaCond (address : Str) : Bool :=
  strStartsWith address ("/chan3/analysis".toList)
    || strStartsWith address ("/analysis/".toList)
    || strStartsWith address ("/features/".toList)
    || containsSub address ("analysis".toList)
    || containsSub address ("features".toList)

/-- `OSCParser::getMessageType`: ordered prefix/substring rules, audio
checked first, then text, then analysis. -/
def getMessageType (address : Str) : MessageType :=
  if audioCond address then .Audio
  else if textCond address then .Text
  else if anaCond address then .Analysis
  else .Unknown

/-- Decoded message, mirroring `OSCParser::OSCMessage`. -/
structure OSCMessage where
  address : Str
  type : MessageType
  floatData : List FVal
  textData : Str
  valid : Bool
deriving DecidableEq, Repr

/-- `OSCParser::parseMessage`: first token is the address and fixes the
type; audio/analysis parse every remaining token with `stof`, skipping
tokens that fail; text takes the rest of the line minus one leading
space.  Valid iff at least one float token parsed (audio/analysis) or the
text is non-empty. -/
def parseMessage (data : Str) : OSCMessage :=
  match extractToken data with
  | none => ⟨[], .Unknown, [], [], false⟩
  | some (tok, rest) =>
    match getMessageType tok with
    | .Audio =>
      let fd := (tokens rest).filterMap stofF
      ⟨tok, .Audio, fd, [], !fd.isEmpty⟩
    | .Text =>
      let line := rest.takeWhile (fun c => c ≠ '\n')
      let t := match line with
        | ' ' :: l => l
        | l => l
      ⟨tok, .Text, [], t, !t.isEmpty⟩
    | .Analysis =>
      let fd := (tokens rest).filterMap stofF
      ⟨tok, .Analysis, fd, [], !fd.isEmpty⟩
    | .Unknown => ⟨tok, .Unknown, [], [], false⟩

/-- `std::max(-1.0f, std::min(1.0f, x))` applied to every sample before
formatting (osc_sender.cpp line 143). -/
def clampSample (x : ℚ) : ℚ := max (-1) (min 1 x)

/-- Round to the nearest integer, ties away from zero, the decimal
rounding performed by `snprintf("%.3f", v)` (on exactly representable
inputs; float ties-to-even on the binary value is below the claimed
tolerance either way). -/
def roundAway (x : ℚ) : Int := if 0 ≤ x then round x else -round (-x)

/-- The rational value carried by the 3-decimal wire token for `x`. -/
def fmt3Q (x : ℚ) : ℚ := (roundAway (1000 * x) : ℚ) / 1000

/-- Character of a single decimal digit (domain of interest: 0..9). -/
def digitChar (n : Nat) : Char :=
  if n = 0 then '0' else if n = 1 then '1' else if n = 2 then '2'
  else if n = 3 then '3' else if n = 4 then '4' else if n = 5 then '5'
  else if n = 6 then '6' else if n = 7 then '7' else if n = 8 then '8'
  else '9'

/-- Fuel-bounded decimal digit expansion, most significant first. -/
def natDigitsAux : Nat → Nat → Str
  | 0, _ => []
  | fuel + 1, n =>
    if n < 10 then [digitChar n]
    else natDigitsAux fuel (n / 10) ++ [digitChar (n % 10)]

/-- Decimal digits of `n` (as written by `std::to_string` / `snprintf`
for the integral part). -/
def natDigits (n : Nat) : Str := natDigitsAux (n + 1) n

/-- Exactly three fraction digits, zero padded, as `%.3f` prints. -/
def pad3 (m : Nat) : Str :=
  [digitChar (m / 100), digitChar (m / 10 % 10), digitChar (m % 10)]

/-- `snprintf(buffer, 16, "%.3f ", sample)` minus the trailing space:
optional minus sign, integral digits, point, three fraction digits.
(A value rounding to zero from below prints without the minus sign in
this model; the parsed value is identical.) -/
def fmt3Str (x : ℚ) : Str :=
  (if roundAway (1000 * x) < 0 then ['-'] else []) ++
    natDigits ((roundAway (1000 * x)).natAbs / 1000) ++
    '.' :: pad3 ((roundAway (1000 * x)).natAbs % 1000)

/-- One chunk transmission attempt of `OSCSender::sendOSCMessage`:
the chunk index, the datagram bytes, and whether `sendto` succeeded. -/
structure ChunkAttempt where
  idx : Nat
  msg : Str
  delivered : Bool
deriving DecidableEq, Repr

/-- The datagram built for chunk `chunk` of `data` (osc_sender.cpp lines
123-148): address, `_<chunk>` suffix only when there are several chunks,
then each clamped sample formatted to three decimals, every token
followed by one space. -/
def buildChunkMsg (address : Str) (data : List ℚ) (totalChunks chunk : Nat) : Str :=
  (if 1 < totalChunks then address ++ '_' :: natDigits chunk ++ [' ']
   else address ++ [' ']) ++
    (((data.drop (chunk * 128)).take
        (min (chunk * 128 + 128) data.length - chunk * 128)).map
      (fun x => fmt3Str (clampSample x) ++ [' '])).flatten

/-- The chunk loop of `sendOSCMessage`: attempts chunks in order starting
at `chunk` with `r` chunks remaining; a failed `sendto` logs and breaks
out of the loop (osc_sender.cpp lines 150-157). -/
def sendChunksAux (sendOk : Nat → Bool) (address : Str) (data : List ℚ)
    (totalChunks : Nat) : Nat → Nat → List ChunkAttempt
  | _, 0 => []
  | chunk, r + 1 =>
    let msg := buildChunkMsg address data totalChunks chunk
    if sendOk chunk then
      ⟨chunk, msg, true⟩ ::
        sendChunksAux sendOk address data totalChunks (chunk + 1) r
    else [⟨chunk, msg, false⟩]

/-- `OSCSender::sendOSCMessage`.  `ready` models `isReady()`, `hostValid`
the `inet_pton` result, `sendOk k` whether `sendto` succeeds for chunk
`k`.  Returns the list of attempted chunk transmissions in order; an
empty list means nothing was put on the wire. -/
def sendOSCMessage (ready hostValid : Bool) (sendOk : Nat → Bool)
    (address : Str) (data : List ℚ) : List ChunkAttempt :=
  if !ready || data.isEmpty then []
  else if 4096 < data.length then []
  else if !hostValid then []
  else
    let totalChunks := (data.length + 128 - 1) / 128
    if 32 < totalChunks then []
    else sendChunksAux sendOk address data totalChunks 0 totalChunks

/-- `OSCSender::sendAudio`: guard on readiness, null data pointer and
non-positive frame count, then forward `frame_count` samples to
`sendOSCMessage`.  A `none` buffer models a null `audio_data` pointer. -/
def sendAudio (ready hostValid : Bool) (sendOk : Nat → Bool)
    (address : Str) (audioData : Option (List ℚ)) (frameCount : Int) :
    List ChunkAttempt :=
  match audioData with
  | none => []
  | some arr =>
    if !ready || frameCount ≤ 0 then []
    else sendOSCMessage ready hostValid sendOk address (arr.take frameCount.toNat)

/-- The datagrams actually delivered (those whose `sendto` succeeded). -/
def deliveredMsgs (l : List ChunkAttempt) : List Str :=
  (l.filter (fun a => a.delivered)).map (fun a => a.msg)

/-- `AudioOutput::addAudioData` eviction loop: `while (size > 20) pop()`,
popping from the front while over capacity. -/
def evictOver : List (List ℚ) → List (List ℚ)
  | [] => []
  | b :: q => if (b :: q).length ≤ 20 then b :: q else evictOver q

/-- `AudioOutput::addAudioData`: ignore empty buffers, push to the back
of the FIFO, evict from the front while over capacity 20. -/
def addAudioData (q : List (List ℚ)) (samples : List ℚ) : List (List ℚ) :=
  if samples = [] then q else evictOver (q ++ [samples])

/-- The fill loop of `AudioOutput::processAudio` (lines 151-175): given
the current buffer with its read position, the FIFO and the number of
frames still needed, produce the filled samples (scaled by `vol`)
together with the final current buffer, position and FIFO. -/
def drain (vol : ℚ) (cur : List ℚ) (pos : Nat) (queue : List (List ℚ))
    (needed : Nat) : List ℚ × List ℚ × Nat × List (List ℚ) :=
  if needed = 0 then ([], cur, pos, queue)
  else if cur.length ≤ pos then
    match queue with
    | [] => ([], cur, pos, queue)
    | b :: qs => drain vol b 0 qs needed
  else
    (((cur.drop pos).take (min (cur.length - pos) needed)).map
        (fun x => x * vol) ++
      (drain vol cur (pos + min (cur.length - pos) needed) queue
        (needed - min (cur.length - pos) needed)).1,
     (drain vol cur (pos + min (cur.length - pos) needed) queue
        (needed - min (cur.length - pos) needed)).2)
termination_by (needed, queue.length)
decreasing_by
  · apply Prod.Lex.right
    simp
  all_goals
    apply Prod.Lex.left
    rename_i h0 h1
    have ht : 0 < min (cur.length - pos) needed := by
      simp only [lt_min_iff]
      omega
    omega

/-- Mutable state of `AudioOutput` relevant to the fill path. -/
structure AOState where
  queue : List (List ℚ)
  currentBuffer : List ℚ
  bufferPosition : Nat
  volume : ℚ
deriving Repr

/-- `AudioOutput::processAudio`: zero the output region, read the volume
once, fill from the current buffer and the FIFO, leave the shortfall as
silence.  Returns the `frame_count` output frames and the new state. -/
def processAudio (st : AOState) (frameCount : Nat) : List ℚ × AOState :=
  let r := drain st.volume st.currentBuffer st.bufferPosition st.queue frameCount
  (r.1 ++ List.replicate (frameCount - r.1.length) 0,
   { st with currentBuffer := r.2.1, bufferPosition := r.2.2.1, queue := r.2.2.2 })

/-- Result of one blocking `recvfrom` in `OSCReceiver::receiveLoop`. -/
inductive ReadResult where
  | datagram (s : Str)
  | emptyRead
  | errorRead
deriving DecidableEq, Repr

/-- Control state of the receive loop: the shared running flag, the
message counter, and whether a socket error has been logged. -/
structure RState where
  running : Bool
  count : Nat
  loggedError : Bool
deriving DecidableEq, Repr

/-- One execution of the `receiveLoop` body (osc_receiver.cpp lines
107-122) for one read result.  `stopped` records whether a concurrent
`stop()` cleared the running flag while the read was blocked.  Returns
the state after the body and whether the body breaks out of the loop.
A positive read parses the datagram and increments the counter; a
zero-length read does nothing; a negative read logs and self-transitions
to idle only when still marked running, and always breaks. -/
def loopIter (st : RState) (stopped : Bool) (r : ReadResult) : RState × Bool :=
  let run := st.running && !stopped
  match r with
  | .datagram _ => ({ st with running := run, count := st.count + 1 }, false)
  | .emptyRead => ({ st with running := run }, false)
  | .errorRead =>
    if run then ({ running := false, count := st.count, loggedError := true }, true)
    else ({ st with running := false }, true)

/-- The receive loop over a sequence of read results: the `while
(running_)` check guards each iteration, and a body that breaks ends the
loop. -/
def runLoop : RState → List (Bool × ReadResult) → RState
  | st, [] => st
  | st, (stopped, r) :: es =>
    if st.running then
      let (st', brk) := loopIter st stopped r
      if brk then st' else runLoop st' es
    else st

/-! ## Tokenizer lemmas -/

theorem tokensAux_nonws_append :
    ∀ t : Str, (∀ c ∈ t, wsChar c = false) →
      ∀ acc s, tokensAux (t ++ s) acc = tokensAux s (t.reverse ++ acc) := by
  intro t
  induction t with
  | nil => intro _ acc s; simp
  | cons c cs ih =>
    intro hws acc s
    have hc : wsChar c = false := hws c (by simp)
    simp only [List.cons_append, tokensAux, hc, Bool.false_eq_true, if_false,
      List.append_eq]
    rw [ih (fun d hd => hws d (by simp [hd])) (c :: acc) s]
    simp

theorem tokens_token_space (t s : Str) (hne : t ≠ [])
    (hws : ∀ c ∈ t, wsChar c = false) :
    tokens (t ++ ' ' :: s) = t :: tokens s := by
  unfold tokens
  rw [tokensAux_nonws_append t hws [] (' ' :: s)]
  have hrev : t.reverse ++ [] ≠ [] := by simpa using hne
  simp only [tokensAux, wsChar]
  simp [hrev, hne]

theorem tokens_flatten (toks : List Str)
    (h : ∀ t ∈ toks, t ≠ [] ∧ ∀ c ∈ t, wsChar c = false) :
    tokens ((toks.map (fun t => t ++ [' '])).flatten) = toks := by
  induction toks with
  | nil => simp [tokens, tokensAux]
  | cons t ts ih =>
    have ht := h t (by simp)
    simp only [List.map_cons, List.flatten_cons, List.append_assoc,
      List.singleton_append]
    rw [tokens_token_space t _ ht.1 ht.2, ih (fun u hu => h u (by simp [hu]))]

theorem takeWhile_nonws_append (t s : Str) (hws : ∀ c ∈ t, wsChar c = false) :
    (t ++ ' ' :: s).takeWhile (fun d => !wsChar d) = t ∧
      (t ++ ' ' :: s).dropWhile (fun d => !wsChar d) = ' ' :: s := by
  induction t with
  | nil => simp [List.takeWhile, List.dropWhile, wsChar]
  | cons c cs ih =>
    have hc : wsChar c = false := hws c (by simp)
    have ihr := ih (fun d hd => hws d (by simp [hd]))
    simp only [List.cons_append, List.takeWhile_cons, List.dropWhile_cons, hc,
      Bool.not_false, if_true, ihr.1, ihr.2]
    simp

theorem extractToken_token_space (t s : Str) (hne : t ≠ [])
    (hws : ∀ c ∈ t, wsChar c = false) :
    extractToken (t ++ ' ' :: s) = some (t, ' ' :: s) := by
  match t, hne with
  | c :: cs, _ =>
    have hc : wsChar c = false := hws c (by simp)
    have htk := takeWhile_nonws_append (c :: cs) s hws
    simp only [List.cons_append] at htk ⊢
    simp [extractToken, hc, htk.1, htk.2]

/-! ## Classification lemmas -/

theorem isPrefixOf_append_right (l s u : Str) (h : l.isPrefixOf s = true) :
    l.isPrefixOf (s ++ u) = true := by
  rw [List.isPrefixOf_iff_prefix] at *
  exact h.trans (List.prefix_append s u)

theorem containsSub_nil_pat : ∀ s : Str, containsSub s [] = true := by
  intro s
  cases s <;> simp [containsSub, List.isPrefixOf]

theorem containsSub_append (s u pat : Str) (h : containsSub s pat = true) :
    containsSub (s ++ u) pat = true := by
  induction s with
  | nil =>
    simp only [containsSub] at h
    have : pat = [] := by
      cases pat with
      | nil => rfl
      | cons p ps => simp [List.isPrefixOf] at h
    subst this
    simpa using containsSub_nil_pat u
  | cons c cs ih =>
    simp only [containsSub, Bool.or_eq_true] at h ⊢
    rcases h with h | h
    · exact Or.inl (isPrefixOf_append_right _ _ _ h)
    · exact Or.inr (ih h)

/-! ## Digit and formatting lemmas -/

theorem isDig_digitChar (m : Nat) : isDig (digitChar m) = true := by
  unfold digitChar
  repeat' split
  all_goals decide

theorem wsChar_digitChar (m : Nat) : wsChar (digitChar m) = false := by
  unfold digitChar
  repeat' split
  all_goals decide

theorem digitVal_digitChar (k : Nat) (hk : k < 10) :
    digitVal (digitChar k) = k := by
  interval_cases k <;> decide

theorem digitsVal_pad3 (m : Nat) (hm : m < 1000) : digitsVal (pad3 m) = m := by
  have h1 : digitVal (digitChar (m / 100)) = m / 100 :=
    digitVal_digitChar _ (by omega)
  have h2 : digitVal (digitChar (m / 10 % 10)) = m / 10 % 10 :=
    digitVal_digitChar _ (by omega)
  have h3 : digitVal (digitChar (m % 10)) = m % 10 :=
    digitVal_digitChar _ (by omega)
  simp only [digitsVal, pad3, List.foldl, h1, h2, h3]
  omega

theorem natDigits_le_one (k : Nat) (hk : k ≤ 1) : natDigits k = [digitChar k] := by
  interval_cases k <;> decide

theorem isDig_not_ws (c : Char) (h : isDig c = true) : wsChar c = false := by
  by_contra hw
  simp only [Bool.not_eq_false, wsChar, Bool.or_eq_true, decide_eq_true_eq,
    or_assoc] at hw
  rcases hw with rfl | rfl | rfl | rfl | rfl | rfl <;> revert h <;> decide

theorem fmt3Str_nonempty (x : ℚ) : fmt3Str x ≠ [] := by
  simp [fmt3Str]

theorem mem_natDigitsAux_isDig (fuel n : Nat) :
    ∀ c ∈ natDigitsAux fuel n, isDig c = true := by
  induction fuel generalizing n with
  | zero => simp [natDigitsAux]
  | succ f ih =>
    intro c hc
    simp only [natDigitsAux] at hc
    split at hc
    · simp at hc
      subst hc
      exact isDig_digitChar n
    · simp only [List.mem_append, List.mem_singleton] at hc
      rcases hc with hc | hc
      · exact ih (n / 10) c hc
      · subst hc
        exact isDig_digitChar (n % 10)

theorem fmt3Str_nonws (x : ℚ) : ∀ c ∈ fmt3Str x, wsChar c = false := by
  intro c hc
  unfold fmt3Str natDigits at hc
  simp only [List.mem_append, List.mem_cons, or_assoc] at hc
  rcases hc with hc | hc | hc | hc
  · split at hc
    · simp only [List.mem_singleton] at hc
      subst hc
      decide
    · simp at hc
  · exact isDig_not_ws c (mem_natDigitsAux_isDig _ _ c hc)
  · subst hc
    decide
  · simp only [pad3, List.mem_cons, List.mem_singleton, List.not_mem_nil,
      or_false] at hc
    rcases hc with hc | hc | hc <;> subst hc <;> exact wsChar_digitChar _

theorem takeWhile_isDig_pad3 (m : Nat) :
    (pad3 m).takeWhile isDig = pad3 m ∧ (pad3 m).dropWhile isDig = [] := by
  simp [pad3, List.takeWhile_cons, List.dropWhile_cons, isDig_digitChar]

theorem stofF_fmt3core (neg : Bool) (k m : Nat) (hk : k ≤ 1) (hm : m < 1000) :
    stofF ((cond neg ['-'] []) ++ digitChar k :: '.' :: pad3 m) =
      some (.fin ((cond neg (-1 : ℚ) 1) * ((k : ℚ) + (m : ℚ) / 1000))) := by
  have hpw1 := (takeWhile_isDig_pad3 m).1
  have hpw2 := (takeWhile_isDig_pad3 m).2
  have hdv := digitsVal_pad3 m hm
  have hlen : (pad3 m).length = 3 := by simp [pad3]
  have hd0 : digitsVal ['0'] = 0 := by decide
  have hd1 : digitsVal ['1'] = 1 := by decide
  have hq : (m : ℚ) ≤ 999 := by exact_mod_cast (by omega : m ≤ 999)
  have hq0 : (0 : ℚ) ≤ (m : ℚ) := by positivity
  have hi0 : isDig '0' = true := by decide
  have hi1 : isDig '1' = true := by decide
  have hidot : isDig '.' = false := by decide
  interval_cases k <;> cases neg <;>
    simp only [show digitChar 0 = '0' from rfl, show digitChar 1 = '1' from rfl,
      cond_true, cond_false, List.cons_append, List.nil_append] <;>
    simp [stofF, parseSign, startsWithCI, List.takeWhile_cons, List.dropWhile_cons,
      hi0, hi1, hidot, hpw1, hpw2, hdv, hlen, parseExp, hd0, hd1] <;>
    constructor <;>
    first
      | (rw [abs_le]
         constructor <;> norm_num [fltMax] <;> linarith)
      | norm_num

theorem abs_sub_roundAway (y : ℚ) : |y - roundAway y| ≤ 1/2 := by
  unfold roundAway
  split
  · exact abs_sub_round y
  · push_cast
    rw [show y - -((round (-y) : ℚ)) = -((-y) - (round (-y) : ℚ)) from by ring,
      abs_neg]
    exact abs_sub_round (-y)

theorem natAbs_roundAway_le (y : ℚ) (n : Nat) (hy : |y| ≤ (n : ℚ)) :
    (roundAway y).natAbs ≤ n := by
  have h1 := abs_sub_roundAway y
  by_contra hc
  push_neg at hc
  have h2 : (n : ℚ) + 1 ≤ ((roundAway y).natAbs : ℚ) := by exact_mod_cast hc
  have h3 : ((roundAway y).natAbs : ℚ) = |((roundAway y : ℤ) : ℚ)| := by
    push_cast [Int.cast_natAbs]
    ring
  have h4 : |((roundAway y : ℤ) : ℚ)| ≤ |y| + 1/2 := by
    calc |((roundAway y : ℤ) : ℚ)|
        = |y + (((roundAway y : ℤ) : ℚ) - y)| := by ring_nf
      _ ≤ |y| + |((roundAway y : ℤ) : ℚ) - y| := abs_add _ _
      _ = |y| + |y - ((roundAway y : ℤ) : ℚ)| := by rw [abs_sub_comm]
      _ ≤ |y| + 1/2 := by linarith
  linarith

theorem stofF_fmt3 (x : ℚ) (hx : |x| ≤ 1) :
    stofF (fmt3Str x) = some (.fin (fmt3Q x)) := by
  have hb : (roundAway (1000 * x)).natAbs ≤ 1000 := by
    apply natAbs_roundAway_le
    rw [abs_mul]
    norm_num
    linarith [abs_nonneg x, hx]
  have hk : (roundAway (1000 * x)).natAbs / 1000 ≤ 1 := by omega
  have hm : (roundAway (1000 * x)).natAbs % 1000 < 1000 := by omega
  have hsplit : (roundAway (1000 * x)).natAbs =
      1000 * ((roundAway (1000 * x)).natAbs / 1000) +
        (roundAway (1000 * x)).natAbs % 1000 := (Nat.div_add_mod _ _).symm
  have hcast : ((roundAway (1000 * x)).natAbs : ℚ) =
      1000 * (((roundAway (1000 * x)).natAbs / 1000 : Nat) : ℚ) +
        (((roundAway (1000 * x)).natAbs % 1000 : Nat) : ℚ) := by
    exact_mod_cast hsplit
  unfold fmt3Str fmt3Q
  rw [natDigits_le_one _ hk]
  by_cases hn : roundAway (1000 * x) < 0
  · rw [if_pos hn]
    have hcore := stofF_fmt3core true ((roundAway (1000 * x)).natAbs / 1000)
      ((roundAway (1000 * x)).natAbs % 1000) hk hm
    simp only [cond_true, cond_false, List.singleton_append, List.cons_append,
      List.nil_append] at hcore ⊢
    rw [hcore]
    congr 2
    have habs : ((roundAway (1000 * x) : ℤ) : ℚ) =
        -(((roundAway (1000 * x)).natAbs : ℚ)) := by
      rw [Int.cast_natAbs, abs_of_neg hn]
      push_cast
      ring
    rw [habs, hcast]
    field_simp
    ring
  · rw [if_neg hn]
    have hcore := stofF_fmt3core false ((roundAway (1000 * x)).natAbs / 1000)
      ((roundAway (1000 * x)).natAbs % 1000) hk hm
    simp only [cond_true, cond_false, List.singleton_append, List.cons_append,
      List.nil_append] at hcore ⊢
    rw [hcore]
    congr 2
    have habs : ((roundAway (1000 * x) : ℤ) : ℚ) =
        (((roundAway (1000 * x)).natAbs : ℚ)) := by
      rw [Int.cast_natAbs, abs_of_nonneg (not_lt.mp hn)]
    rw [habs, hcast]
    field_simp
    ring

theorem abs_fmt3Q_sub (x : ℚ) : |fmt3Q x - x| ≤ 1/2000 := by
  have h := abs_sub_roundAway (1000 * x)
  unfold fmt3Q
  rw [show (roundAway (1000 * x) : ℚ) / 1000 - x =
      -((1000 * x - (roundAway (1000 * x) : ℚ)) / 1000) from by ring, abs_neg,
    abs_div]
  rw [show |(1000 : ℚ)| = 1000 from by norm_num]
  linarith

theorem clampSample_eq_self (x : ℚ) (h1 : -1 ≤ x) (h2 : x ≤ 1) :
    clampSample x = x := by
  unfold clampSample
  rw [min_eq_right h2, max_eq_right h1]

theorem abs_clampSample_le_one (x : ℚ) : |clampSample x| ≤ 1 := by
  unfold clampSample
  rw [abs_le]
  constructor
  · simp
  · simp only [max_le_iff]
    constructor
    · norm_num
    · exact min_le_left 1 x

theorem filterMap_eq_map_of_some {α β : Type} (l : List α) (f : α → Option β)
    (g : α → β) (h : ∀ a ∈ l, f a = some (g a)) : l.filterMap f = l.map g := by
  induction l with
  | nil => rfl
  | cons a as ih =>
    rw [List.filterMap_cons, h a (by simp), List.map_cons,
      ih (fun b hb => h b (by simp [hb]))]

theorem tokens_cons_space (s : Str) : tokens (' ' :: s) = tokens s := by
  simp [tokens, tokensAux, wsChar]

/-- Well-formedness of the per-sample wire tokens. -/
theorem fmtTok_wf (samples : List ℚ) :
    ∀ t ∈ samples.map (fun x => fmt3Str (clampSample x)),
      t ≠ [] ∧ ∀ c ∈ t, wsChar c = false := by
  intro t ht
  simp only [List.mem_map] at ht
  obtain ⟨x, _, rfl⟩ := ht
  exact ⟨fmt3Str_nonempty _, fmt3Str_nonws _⟩

/-- Decoding of an audio/analysis chunk: every 3-decimal float token
parses back to its decimal value. -/
theorem parseMessage_float_chunk (tok0 : Str) (samples : List ℚ)
    (hne : tok0 ≠ []) (hws : ∀ c ∈ tok0, wsChar c = false)
    (ht : getMessageType tok0 = .Audio ∨ getMessageType tok0 = .Analysis) :
    parseMessage (tok0 ++ ' ' ::
        (samples.map (fun x => fmt3Str (clampSample x) ++ [' '])).flatten) =
      ⟨tok0, getMessageType tok0,
        samples.map (fun x => FVal.fin (fmt3Q (clampSample x))), [],
        !samples.isEmpty⟩ := by
  have hext := extractToken_token_space tok0
    ((samples.map (fun x => fmt3Str (clampSample x) ++ [' '])).flatten) hne hws
  have hflat : (samples.map (fun x => fmt3Str (clampSample x) ++ [' '])) =
      ((samples.map (fun x => fmt3Str (clampSample x))).map (fun t => t ++ [' '])) := by
    rw [List.map_map]
    rfl
  have htoks : tokens ((samples.map (fun x => fmt3Str (clampSample x) ++ [' '])).flatten) =
      samples.map (fun x => fmt3Str (clampSample x)) := by
    rw [hflat]
    exact tokens_flatten _ (fmtTok_wf samples)
  have hfm : (samples.map (fun x => fmt3Str (clampSample x))).filterMap stofF =
      samples.map (fun x => FVal.fin (fmt3Q (clampSample x))) := by
    rw [List.filterMap_map]
    exact filterMap_eq_map_of_some _ _ _
      (fun x _ => stofF_fmt3 (clampSample x) (abs_clampSample_le_one x))
  rcases ht with h | h <;>
    simp only [parseMessage, hext, h, tokens_cons_space, htoks, hfm] <;>
    cases samples <;> rfl

theorem getMessageType_eq_AUDIO_iff (a : Str) :
    getMessageType a = .Audio ↔ audioCond a = true := by
  unfold getMessageType
  split_ifs with h1 h2 h3 <;> simp_all

theorem getMessageType_eq_TEXT_iff (a : Str) :
    getMessageType a = .Text ↔ (audioCond a = false ∧ textCond a = true) := by
  unfold getMessageType
  split_ifs with h1 h2 h3 <;> simp_all

theorem getMessageType_eq_ANALYSIS_iff (a : Str) :
    getMessageType a = .Analysis ↔
      (audioCond a = false ∧ textCond a = false ∧ anaCond a = true) := by
  unfold getMessageType
  split_ifs with h1 h2 h3 <;> simp_all

theorem audioCond_append (a u : Str) (h : audioCond a = true) :
    audioCond (a ++ u) = true := by
  simp only [audioCond, strStartsWith, Bool.or_eq_true] at h ⊢
  rcases h with (h | h) | h
  · exact Or.inl (Or.inl (isPrefixOf_append_right _ _ _ h))
  · exact Or.inl (Or.inr (isPrefixOf_append_right _ _ _ h))
  · exact Or.inr (containsSub_append _ _ _ h)

theorem getMessageType_AUDIO_append (a u : Str)
    (h : getMessageType a = .Audio) : getMessageType (a ++ u) = .Audio := by
  rw [getMessageType_eq_AUDIO_iff] at h ⊢
  exact audioCond_append a u h

/-- Decoding of a chunk sent to a text-classified address: the whole
remainder of the line (the float tokens and their separators) becomes the
text payload. -/
theorem parseMessage_text_chunk (tok0 : Str) (samples : List ℚ)
    (hne : tok0 ≠ []) (hws : ∀ c ∈ tok0, wsChar c = false)
    (ht : getMessageType tok0 = .Text) :
    parseMessage (tok0 ++ ' ' ::
        (samples.map (fun x => fmt3Str (clampSample x) ++ [' '])).flatten) =
      ⟨tok0, .Text, [],
        (samples.map (fun x => fmt3Str (clampSample x) ++ [' '])).flatten,
        !(samples.map (fun x => fmt3Str (clampSample x) ++ [' '])).flatten.isEmpty⟩ := by
  have hext := extractToken_token_space tok0
    ((samples.map (fun x => fmt3Str (clampSample x) ++ [' '])).flatten) hne hws
  have hnl : ∀ c ∈ (samples.map (fun x => fmt3Str (clampSample x) ++ [' '])).flatten,
      (c ≠ '\n') := by
    intro c hc
    simp only [List.mem_flatten, List.mem_map] at hc
    obtain ⟨l, ⟨x, _, rfl⟩, hcl⟩ := hc
    simp only [List.mem_append, List.mem_singleton] at hcl
    rcases hcl with hcl | hcl
    · intro hcn
      subst hcn
      have := fmt3Str_nonws (clampSample x) _ hcl
      simp [wsChar] at this
    · subst hcl
      decide
  have htw : ((samples.map (fun x => fmt3Str (clampSample x) ++ [' '])).flatten).takeWhile
      (fun c => c ≠ '\n') =
      (samples.map (fun x => fmt3Str (clampSample x) ++ [' '])).flatten := by
    rw [List.takeWhile_eq_self_iff]
    intro a ha
    simpa using hnl a ha
  simp only [parseMessage, hext, ht, List.takeWhile_cons]
  simp only [show (decide (' ' ≠ '\n')) = true from by decide, if_true, htw]

/-! ## Sender chunk-loop lemmas -/

theorem sendChunksAux_allOk (sendOk : Nat → Bool) (address : Str)
    (data : List ℚ) (total : Nat) (hok : ∀ k, sendOk k = true) :
    ∀ r c, sendChunksAux sendOk address data total c r =
      (List.range r).map
        (fun i => ⟨c + i, buildChunkMsg address data total (c + i), true⟩) := by
  intro r
  induction r with
  | zero => intro c; rfl
  | succ n ih =>
    intro c
    simp only [sendChunksAux, hok, if_true]
    rw [List.range_succ_eq_map, List.map_cons, List.map_map, ih (c + 1)]
    refine congrArg₂ _ (by simp) ?_
    apply List.map_congr_left
    intro i _
    have h : c + Nat.succ i = c + 1 + i := by omega
    simp only [Function.comp_apply, h]

theorem sendChunksAux_failAt (sendOk : Nat → Bool) (address : Str)
    (data : List ℚ) (total : Nat) :
    ∀ r c k, (∀ i, i < k → sendOk (c + i) = true) → sendOk (c + k) = false →
      k < r →
      sendChunksAux sendOk address data total c r =
        ((List.range k).map
          (fun i => ⟨c + i, buildChunkMsg address data total (c + i), true⟩)) ++
          [⟨c + k, buildChunkMsg address data total (c + k), false⟩] := by
  intro r
  induction r with
  | zero => intro c k _ _ hk; omega
  | succ n ih =>
    intro c k hlt hfail hk
    cases k with
    | zero =>
      simp only [Nat.add_zero] at hfail
      simp [sendChunksAux, hfail]
    | succ j =>
      have hc : sendOk c = true := by
        have := hlt 0 (by omega)
        simpa using this
      simp only [sendChunksAux, hc, if_true]
      rw [ih (c + 1) j
        (fun i hi => by
          have := hlt (i + 1) (by omega)
          rw [show c + (i + 1) = c + 1 + i from by omega] at this
          exact this)
        (by
          rw [show c + 1 + j = c + (j + 1) from by omega]
          exact hfail)
        (by omega)]
      rw [List.range_succ_eq_map, List.map_cons, List.map_map]
      simp only [Nat.add_zero, List.cons_append]
      refine congrArg₂ _ (by simp) ?_
      rw [show c + Nat.succ j = c + 1 + j from by omega]
      refine congrArg₂ _ ?_ rfl
      apply List.map_congr_left
      intro i _
      have h : c + Nat.succ i = c + 1 + i := by omega
      simp only [Function.comp_apply, h]

theorem chunkSlice_eq (data : List ℚ) (s : Nat) :
    (data.drop s).take (min (s + 128) data.length - s) = (data.drop s).take 128 := by
  rw [List.take_eq_take, List.length_drop]
  omega

theorem flatten_chunks (total : Nat) :
    ∀ data : List ℚ, data.length ≤ 128 * total →
      ((List.range total).map (fun k => (data.drop (k * 128)).take 128)).flatten
        = data := by
  induction total with
  | zero =>
    intro data h
    simp only [Nat.mul_zero, Nat.le_zero] at h
    rw [List.eq_nil_of_length_eq_zero h]
    rfl
  | succ t ih =>
    intro data h
    rw [List.range_succ_eq_map, List.map_cons, List.flatten_cons, List.map_map]
    have hmap : (List.range t).map
        ((fun k => (data.drop (k * 128)).take 128) ∘ Nat.succ) =
        (List.range t).map (fun k => ((data.drop 128).drop (k * 128)).take 128) := by
      apply List.map_congr_left
      intro i _
      simp only [Function.comp_apply, List.drop_drop]
      rw [show 128 + i * 128 = Nat.succ i * 128 from by omega]
    rw [hmap, ih (data.drop 128) (by rw [List.length_drop]; omega)]
    simp

theorem buildChunkMsg_eq (address : Str) (data : List ℚ) (total chunk : Nat) :
    buildChunkMsg address data total chunk =
      (if 1 < total then address ++ '_' :: natDigits chunk else address) ++
        ' ' :: (((data.drop (chunk * 128)).take 128).map
          (fun x => fmt3Str (clampSample x) ++ [' '])).flatten := by
  unfold buildChunkMsg
  rw [chunkSlice_eq]
  split_ifs with h <;> simp [List.append_assoc]

theorem sendOSCMessage_unfold_ok (sendOk : Nat → Bool) (address : Str)
    (data : List ℚ) (h1 : 1 ≤ data.length) (h2 : data.length ≤ 4096) :
    sendOSCMessage true true sendOk address data =
      sendChunksAux sendOk address data ((data.length + 128 - 1) / 128) 0
        ((data.length + 128 - 1) / 128) := by
  unfold sendOSCMessage
  have hne : data.isEmpty = false := by
    cases data with
    | nil => simp at h1
    | cons a l => rfl
  have htot : ¬ (32 < (data.length + 128 - 1) / 128) := by omega
  have htot2 : ¬ (32 < (data.length + 127) / 128) := by omega
  simp [hne, htot, htot2, show ¬ (4096 < data.length) from by omega]

theorem chunkTok_wf (address : Str) (hne : address ≠ [])
    (hws : ∀ c ∈ address, wsChar c = false) (i total : Nat) :
    (if 1 < total then address ++ '_' :: natDigits i else address) ≠ [] ∧
      ∀ c ∈ (if 1 < total then address ++ '_' :: natDigits i else address),
        wsChar c = false := by
  split_ifs with h
  · refine ⟨by simp [hne], ?_⟩
    intro c hc
    simp only [List.mem_append, List.mem_cons] at hc
    rcases hc with hc | hc | hc
    · exact hws c hc
    · subst hc
      decide
    · exact isDig_not_ws c (mem_natDigitsAux_isDig _ _ c hc)
  · exact ⟨hne, hws⟩

theorem forall₂_map_self {α β : Type} (R : β → α → Prop) (g : α → β)
    (l : List α) (h : ∀ a ∈ l, R (g a) a) : List.Forall₂ R (l.map g) l := by
  induction l with
  | nil => exact List.Forall₂.nil
  | cons a as ih =>
    exact List.Forall₂.cons (h a (by simp)) (ih (fun b hb => h b (by simp [hb])))

theorem flatten_map_map {α β γ : Type} (f : γ → List α) (g : α → β)
    (l : List γ) :
    (l.map (fun k => (f k).map g)).flatten = ((l.map f).flatten).map g := by
  induction l with
  | nil => rfl
  | cons a as ih => simp [ih]

/-- C1 core assembly: the concatenated decoded floats are the 3-decimal
values of the original samples. -/
theorem decoded_floats_eq (address : Str) (data : List ℚ)
    (hne : address ≠ []) (hws : ∀ c ∈ address, wsChar c = false)
    (haud : getMessageType address = .Audio)
    (h1 : 1 ≤ data.length) (h2 : data.length ≤ 4096) :
    ((sendOSCMessage true true (fun _ => true) address data).map
        (fun a => (parseMessage a.msg).floatData)).flatten =
      data.map (fun x => FVal.fin (fmt3Q (clampSample x))) := by
  rw [sendOSCMessage_unfold_ok _ _ _ h1 h2,
    sendChunksAux_allOk _ _ _ _ (fun _ => rfl), List.map_map]
  have hT : data.length ≤ 128 * ((data.length + 128 - 1) / 128) := by omega
  have hpt : ∀ k ∈ List.range ((data.length + 128 - 1) / 128),
      ((fun a : ChunkAttempt => (parseMessage a.msg).floatData) ∘
        (fun i => ⟨0 + i,
          buildChunkMsg address data ((data.length + 128 - 1) / 128) (0 + i),
          true⟩)) k =
      (fun k => ((data.drop (k * 128)).take 128).map
        (fun x => FVal.fin (fmt3Q (clampSample x)))) k := by
    intro k _
    simp only [Function.comp_apply, Nat.zero_add]
    rw [buildChunkMsg_eq]
    have hwf := chunkTok_wf address hne hws k ((data.length + 128 - 1) / 128)
    have htype : getMessageType
        (if 1 < (data.length + 128 - 1) / 128 then
          address ++ '_' :: natDigits k else address) = .Audio := by
      split_ifs with h
      · exact getMessageType_AUDIO_append _ _ haud
      · exact haud
    rw [parseMessage_float_chunk _ _ hwf.1 hwf.2 (Or.inl htype)]
  rw [List.map_congr_left hpt]
  rw [flatten_map_map (fun k => (data.drop (k * 128)).take 128)
    (fun x => FVal.fin (fmt3Q (clampSample x)))]
  rw [flatten_chunks _ data hT]

/-! ## Claim theorems -/

/-- C1: Round-trip — for every sample sequence of length 1 to 4096 with
every value in [-1,1], encoding with the sender (address classified as
Audio, whitespace-free) and decoding each produced datagram with the
parser, then concatenating the decoded float data in transmission order,
reproduces the original sequence element-wise within 0.0005 (= 1/2000)
absolute tolerance. -/
theorem c1_roundtrip (address : Str) (data : List ℚ)
    (hws : ∀ c ∈ address, wsChar c = false)
    (haud : getMessageType address = .Audio)
    (h1 : 1 ≤ data.length) (h2 : data.length ≤ 4096)
    (hrange : ∀ x ∈ data, -1 ≤ x ∧ x ≤ 1) :
    List.Forall₂ (fun v x => ∃ q : ℚ, v = FVal.fin q ∧ |q - x| ≤ 1/2000)
      (((sendOSCMessage true true (fun _ => true) address data).map
        (fun a => (parseMessage a.msg).floatData)).flatten)
      data := by
  have hne : address ≠ [] := by
    intro h
    subst h
    rw [show getMessageType ([] : Str) = .Unknown from by decide] at haud
    exact absurd haud (by decide)
  rw [decoded_floats_eq address data hne hws haud h1 h2]
  apply forall₂_map_self
  intro x hx
  refine ⟨fmt3Q (clampSample x), rfl, ?_⟩
  rw [clampSample_eq_self x (hrange x hx).1 (hrange x hx).2]
  exact abs_fmt3Q_sub x

/-- Witness for C1 at the default audio address and one sample. -/
theorem c1_roundtrip_witness :
    (∀ c ∈ ("/audio/stream".toList), wsChar c = false) ∧
      getMessageType ("/audio/stream".toList) = .Audio ∧
      List.Forall₂ (fun v x => ∃ q : ℚ, v = FVal.fin q ∧ |q - x| ≤ 1/2000)
        (((sendOSCMessage true true (fun _ => true) ("/audio/stream".toList)
          [0]).map (fun a => (parseMessage a.msg).floatData)).flatten)
        [0] :=
  ⟨by decide, by decide,
    c1_roundtrip ("/audio/stream".toList) [0] (by decide) (by decide)
      (by decide) (by decide) (by decide)⟩

/-- C3: Cap enforcement — a send call whose sample count exceeds 4096
(equivalently whose required chunk count exceeds 32) is rejected up
front: zero datagrams are attempted, so there is no partial send. -/
theorem c3_caps (ready hostValid : Bool) (sendOk : Nat → Bool) (address : Str)
    (data : List ℚ)
    (h : 4096 < data.length ∨ 32 < (data.length + 128 - 1) / 128) :
    sendOSCMessage ready hostValid sendOk address data = [] := by
  have h4096 : 4096 < data.length := by
    rcases h with h | h
    · exact h
    · omega
  unfold sendOSCMessage
  split_ifs <;> first | rfl | (exfalso; omega)

/-- Witness for C3 at 5000 samples. -/
theorem c3_caps_witness :
    (4096 < (List.replicate 5000 (0 : ℚ)).length ∨
      32 < ((List.replicate 5000 (0 : ℚ)).length + 128 - 1) / 128) ∧
      sendOSCMessage true true (fun _ => true) ("/audio/stream".toList)
        (List.replicate 5000 0) = [] :=
  ⟨Or.inl ((List.length_replicate 5000 (0 : ℚ)).symm ▸
      (by decide : (4096 : ℕ) < 5000)),
    c3_caps true true (fun _ => true) ("/audio/stream".toList)
      (List.replicate 5000 0)
      (Or.inl ((List.length_replicate 5000 (0 : ℚ)).symm ▸
        (by decide : (4096 : ℕ) < 5000)))⟩

/-- C10: `sendAudio` with a null data pointer, a non-positive frame
count, or a sender that is not ready, transmits nothing (and the model is
pure, so no sender state changes): a total, silent no-op. -/
theorem c10_sendAudio_noop (ready hostValid : Bool) (sendOk : Nat → Bool)
    (address : Str) (audioData : Option (List ℚ)) (frameCount : Int)
    (h : ready = false ∨ audioData = none ∨ frameCount ≤ 0) :
    sendAudio ready hostValid sendOk address audioData frameCount = [] := by
  unfold sendAudio
  rcases audioData with _ | arr
  · rfl
  · have hc : (!ready || decide (frameCount ≤ 0)) = true := by
      rcases h with h | h | h
      · subst h
        rfl
      · simp at h
      · simp [h]
    simp [hc]

/-- Witness for C10 with a closed socket (not ready). -/
theorem c10_sendAudio_noop_witness :
    ((false : Bool) = false ∨ (some [(1 : ℚ)]) = none ∨ (5 : Int) ≤ 0) ∧
      sendAudio false true (fun _ => true) ("/audio/stream".toList)
        (some [1]) 5 = [] :=
  ⟨Or.inl rfl, c10_sendAudio_noop false true (fun _ => true)
    ("/audio/stream".toList) (some [1]) 5 (Or.inl rfl)⟩

theorem evictOver_eq_drop (q : List (List ℚ)) :
    evictOver q = q.drop (q.length - 20) := by
  induction q with
  | nil => rfl
  | cons b q ih =>
    simp only [evictOver]
    split_ifs with h
    · rw [show (b :: q).length - 20 = 0 from by
        simp only [List.length_cons] at h ⊢
        omega]
      rfl
    · rw [ih, show (b :: q).length - 20 = (q.length - 20) + 1 from by
        simp only [List.length_cons] at h ⊢
        omega, List.drop_succ_cons]

theorem addAudioData_foldl (bs : List (List ℚ)) (hwf : ∀ b ∈ bs, b ≠ []) :
    List.foldl addAudioData [] bs = bs.drop (bs.length - 20) := by
  induction bs using List.reverseRecOn with
  | nil => rfl
  | append_singleton bs b ih =>
    rw [List.foldl_append, List.foldl_cons, List.foldl_nil,
      ih (fun x hx => hwf x (by simp [hx]))]
    unfold addAudioData
    rw [if_neg (hwf b (by simp)), evictOver_eq_drop]
    rw [show bs.drop (bs.length - 20) ++ [b] = (bs ++ [b]).drop (bs.length - 20)
      from (List.drop_append_of_le_length (by omega)).symm]
    rw [List.drop_drop]
    congr 1
    simp only [List.length_drop, List.length_append, List.length_singleton]
    omega

/-- C5: Playback queue bounding — starting empty, after any sequence of
`addAudioData` calls with non-empty buffers the FIFO holds exactly the
most recent (up to) 20 buffers in order, and in particular never more
than 20 after any call. -/
theorem c5_queue_bound (bs : List (List ℚ)) (hwf : ∀ b ∈ bs, b ≠ []) :
    List.foldl addAudioData [] bs = bs.drop (bs.length - 20) ∧
      ∀ n : Nat, (List.foldl addAudioData [] (bs.take n)).length ≤ 20 := by
  constructor
  · exact addAudioData_foldl bs hwf
  · intro n
    rw [addAudioData_foldl _ (fun b hb => hwf b (List.mem_of_mem_take hb))]
    simp only [List.length_drop]
    omega

/-- Witness for C5: pushing 25 buffers leaves the most recent 20. -/
theorem c5_queue_bound_witness :
    (∀ b ∈ List.replicate 25 [(0 : ℚ)], b ≠ []) ∧
      (List.foldl addAudioData [] (List.replicate 25 [(0 : ℚ)]) =
        (List.replicate 25 [(0 : ℚ)]).drop
          ((List.replicate 25 [(0 : ℚ)]).length - 20) ∧
        ∀ n : Nat,
          (List.foldl addAudioData []
            ((List.replicate 25 [(0 : ℚ)]).take n)).length ≤ 20) :=
  ⟨by decide, c5_queue_bound (List.replicate 25 [(0 : ℚ)]) (by decide)⟩

set_option maxRecDepth 8000 in
/-- C7 counterexample: a multi-chunk send (129 samples require 2 chunks)
whose first transmit fails attempts no further chunk — the loop breaks
instead of continuing, refuting the claim as stated. -/
theorem c7_counterexample :
    1 < ((List.replicate 129 (0 : ℚ)).length + 128 - 1) / 128 ∧
      (sendOSCMessage true true (fun _ => false) ("/audio/stream".toList)
        (List.replicate 129 0)).map (fun a => (a.idx, a.delivered)) =
        [(0, false)] := by
  constructor
  · decide
  · decide

/-- C7 amended: when transmitting chunk `k` of a multi-chunk call fails
(and chunks before it succeeded), the loop breaks: chunks `0..k-1` are
delivered, chunk `k` is attempted and fails, and the remaining chunks of
the call are never attempted. -/
theorem c7_break_on_failure (sendOk : Nat → Bool) (address : Str)
    (data : List ℚ) (k : Nat)
    (h1 : 1 ≤ data.length) (h2 : data.length ≤ 4096)
    (hok : ∀ i, i < k → sendOk i = true) (hfail : sendOk k = false)
    (hk : k < (data.length + 128 - 1) / 128) :
    sendOSCMessage true true sendOk address data =
      ((List.range k).map (fun i =>
        ⟨i, buildChunkMsg address data ((data.length + 128 - 1) / 128) i,
          true⟩)) ++
        [⟨k, buildChunkMsg address data ((data.length + 128 - 1) / 128) k,
          false⟩] := by
  rw [sendOSCMessage_unfold_ok _ _ _ h1 h2]
  have h := sendChunksAux_failAt sendOk address data
    ((data.length + 128 - 1) / 128) ((data.length + 128 - 1) / 128) 0 k
    (fun i hi => by simpa using hok i hi) (by simpa using hfail) hk
  simpa using h

set_option maxRecDepth 8000 in
/-- Witness for the amended C7: 300 samples (3 chunks), failure at
chunk 1. -/
theorem c7_break_on_failure_witness :
    (1 ≤ (List.replicate 300 (0 : ℚ)).length ∧
      (List.replicate 300 (0 : ℚ)).length ≤ 4096 ∧
      (∀ i, i < 1 → (fun j => decide (j < 1)) i = true) ∧
      (fun j => decide (j < 1)) 1 = false ∧
      1 < ((List.replicate 300 (0 : ℚ)).length + 128 - 1) / 128) ∧
      sendOSCMessage true true (fun j => decide (j < 1))
          ("/audio/stream".toList) (List.replicate 300 0) =
        ((List.range 1).map (fun i =>
          ⟨i, buildChunkMsg ("/audio/stream".toList) (List.replicate 300 0)
            (((List.replicate 300 (0 : ℚ)).length + 128 - 1) / 128) i,
            true⟩)) ++
          [⟨1, buildChunkMsg ("/audio/stream".toList) (List.replicate 300 0)
            (((List.replicate 300 (0 : ℚ)).length + 128 - 1) / 128) 1,
            false⟩] :=
  ⟨⟨by decide, by decide, by decide, by decide, by decide⟩,
    c7_break_on_failure (fun j => decide (j < 1)) ("/audio/stream".toList)
      (List.replicate 300 0) 1 (by decide) (by decide) (by decide) (by decide)
      (by decide)⟩

/-- C9 counterexample: a zero-length datagram read while running does
not stop the receiver — the loop keeps running and processes the next
datagram (the counter reaches 1 and the state is still running),
refuting the claim as stated. -/
theorem c9_counterexample :
    runLoop ⟨true, 0, false⟩
        [(false, .emptyRead), (false, .datagram ['/', 'x'])] =
      ⟨true, 1, false⟩ := by
  decide

/-- C9 amended: an error read always breaks out of the loop, setting the
running flag false and logging only when the receiver was still marked
running at the read (an intentional close during `stop` logs nothing); a
zero-length read changes nothing and the loop continues with the next
read. -/
theorem c9_loop_exit (st : RState) (stopped : Bool)
    (es : List (Bool × ReadResult)) :
    loopIter st stopped .errorRead =
      (⟨false, st.count, st.loggedError || (st.running && !stopped)⟩, true) ∧
      loopIter st stopped .emptyRead =
        ({ st with running := st.running && !stopped }, false) ∧
      runLoop st ((false, .emptyRead) :: es) =
        if st.running then runLoop st es else st := by
  obtain ⟨r, c, l⟩ := st
  refine ⟨?_, rfl, ?_⟩
  · cases r <;> cases stopped <;> simp [loopIter]
  · cases r <;> simp [runLoop, loopIter]

/-- C4: Classification determinism — the four concrete classifications
of the spec hold; any address containing "audio" classifies as Audio;
and the rules are applied with Audio checked before Text checked before
Analysis (each class holds exactly when its rule fires and no earlier
rule does). -/
theorem c4_classification :
    getMessageType ("/audio/stream".toList) = .Audio ∧
      getMessageType ("/chan2/text".toList) = .Text ∧
      getMessageType ("/chan3/analysis".toList) = .Analysis ∧
      getMessageType ("/foo/bar".toList) = .Unknown ∧
      (∀ a : Str, containsSub a ("audio".toList) = true →
        getMessageType a = .Audio) ∧
      (∀ a : Str, getMessageType a = .Audio ↔ audioCond a = true) ∧
      (∀ a : Str, getMessageType a = .Text ↔
        audioCond a = false ∧ textCond a = true) ∧
      (∀ a : Str, getMessageType a = .Analysis ↔
        audioCond a = false ∧ textCond a = false ∧ anaCond a = true) := by
  refine ⟨by decide, by decide, by decide, by decide, ?_,
    getMessageType_eq_AUDIO_iff, getMessageType_eq_TEXT_iff,
    getMessageType_eq_ANALYSIS_iff⟩
  intro a ha
  rw [getMessageType_eq_AUDIO_iff]
  simp only [audioCond, Bool.or_eq_true]
  exact Or.inr ha

/-- Witness for C4 on an address containing "audio". -/
theorem c4_classification_witness :
    containsSub ("/zz/audio9".toList) ("audio".toList) = true ∧
      getMessageType ("/zz/audio9".toList) = .Audio :=
  ⟨by decide, c4_classification.2.2.2.2.1 ("/zz/audio9".toList) (by decide)⟩

theorem drain_underrun (vol : ℚ) :
    ∀ (M : Nat) (cur : List ℚ) (pos : Nat) (queue : List (List ℚ))
      (needed : Nat),
      needed + queue.length ≤ M →
      (cur.length - pos) + (queue.map List.length).sum < needed →
      (drain vol cur pos queue needed).1 =
        ((cur.drop pos) ++ queue.flatten).map (fun x => x * vol) := by
  intro M
  induction M with
  | zero => intro cur pos queue needed hM hk; omega
  | succ M ih =>
    intro cur pos queue needed hM hk
    have hpos : needed ≠ 0 := by omega
    rw [drain.eq_def, if_neg hpos]
    by_cases hcp : cur.length ≤ pos
    · rw [if_pos hcp]
      cases queue with
      | nil =>
        simp [List.drop_eq_nil_of_le hcp]
      | cons b qs =>
        have h1 : needed + qs.length ≤ M := by
          simp only [List.length_cons] at hM
          omega
        have h2 : (b.length - 0) + (qs.map List.length).sum < needed := by
          simp only [List.map_cons, List.sum_cons] at hk
          omega
        rw [ih b 0 qs needed h1 h2]
        simp [List.drop_eq_nil_of_le hcp]
    · rw [if_neg hcp]
      have ht : min (cur.length - pos) needed = cur.length - pos :=
        min_eq_left (by omega)
      simp only [ht]
      have h1 : (needed - (cur.length - pos)) + queue.length ≤ M := by omega
      have h2 : (cur.length - (pos + (cur.length - pos))) +
          (queue.map List.length).sum < needed - (cur.length - pos) := by
        omega
      rw [ih cur (pos + (cur.length - pos)) queue
        (needed - (cur.length - pos)) h1 h2]
      have hdrop : cur.drop (pos + (cur.length - pos)) = [] :=
        List.drop_eq_nil_of_le (by omega)
      rw [hdrop]
      have htake : (cur.drop pos).take (cur.length - pos) = cur.drop pos := by
        apply List.take_of_length_le
        rw [List.length_drop]
      rw [htake]
      simp

/-- C6: Underrun degrades to silence — when the queued samples (current
buffer remainder plus FIFO contents) total k < N, the real-time fill
outputs exactly those k samples in FIFO order, each scaled by the current
volume, followed by N - k exact zeros. -/
theorem c6_underrun (st : AOState) (N : Nat)
    (h : (st.currentBuffer.length - st.bufferPosition) +
      (st.queue.map List.length).sum < N) :
    (processAudio st N).1 =
      ((st.currentBuffer.drop st.bufferPosition) ++ st.queue.flatten).map
          (fun x => x * st.volume) ++
        List.replicate
          (N - ((st.currentBuffer.length - st.bufferPosition) +
            (st.queue.map List.length).sum)) 0 := by
  simp only [processAudio]
  rw [drain_underrun st.volume (N + st.queue.length) st.currentBuffer
    st.bufferPosition st.queue N (le_refl _) h]
  congr 2
  simp only [List.length_map, List.length_append, List.length_drop,
    List.length_flatten, List.map_map]

/-- Witness for C6: 4 queued samples, 6 frames requested. -/
theorem c6_underrun_witness :
    ((([9, 9, 9] : List ℚ).length - 2) +
        (([[1, 2], [3]] : List (List ℚ)).map List.length).sum < 6) ∧
      (processAudio ⟨[[1, 2], [3]], [9, 9, 9], 2, 1⟩ 6).1 =
        ((([9, 9, 9] : List ℚ).drop 2) ++
            ([[1, 2], [3]] : List (List ℚ)).flatten).map (fun x => x * 1) ++
          List.replicate
            (6 - ((([9, 9, 9] : List ℚ).length - 2) +
              (([[1, 2], [3]] : List (List ℚ)).map List.length).sum)) 0 :=
  ⟨by decide, c6_underrun ⟨[[1, 2], [3]], [9, 9, 9], 2, 1⟩ 6 (by decide)⟩

/-- Validity of one encoded chunk as a function of its address token
classification: valid exactly when the token classifies as a known
channel type. -/
theorem parseMessage_chunk_valid (tok0 : Str) (samples : List ℚ)
    (hne : tok0 ≠ []) (hws : ∀ c ∈ tok0, wsChar c = false)
    (hs : samples ≠ []) :
    ((parseMessage (tok0 ++ ' ' ::
        (samples.map (fun x => fmt3Str (clampSample x) ++ [' '])).flatten)).valid
      = true ↔ getMessageType tok0 ≠ .Unknown) := by
  have hbody : (samples.map (fun x => fmt3Str (clampSample x) ++ [' '])).flatten
      ≠ [] := by
    cases samples with
    | nil => exact absurd rfl hs
    | cons x xs =>
      simp only [List.map_cons, List.flatten_cons, ne_eq, List.append_assoc]
      intro hcontra
      rcases List.append_eq_nil.mp hcontra with ⟨hf, _⟩
      exact fmt3Str_nonempty (clampSample x) hf
  cases hty : getMessageType tok0 with
  | Audio =>
    rw [parseMessage_float_chunk tok0 samples hne hws (Or.inl hty)]
    cases samples with
    | nil => exact absurd rfl hs
    | cons x xs => simp [hty]
  | Analysis =>
    rw [parseMessage_float_chunk tok0 samples hne hws (Or.inr hty)]
    cases samples with
    | nil => exact absurd rfl hs
    | cons x xs => simp [hty]
  | Text =>
    rw [parseMessage_text_chunk tok0 samples hne hws hty]
    simp only [ne_eq]
    constructor
    · intro _ hcontra
      exact absurd hcontra (by simp [hty])
    · intro _
      simpa [List.isEmpty_iff] using hbody
  | Unknown =>
    have hext := extractToken_token_space tok0
      ((samples.map (fun x => fmt3Str (clampSample x) ++ [' '])).flatten) hne hws
    simp [parseMessage, hext, hty]

/-- C2 amended: an in-range send call with all transmits succeeding
produces exactly ceil(N/128) datagrams in chunk order, all delivered,
with distinct chunk indices 0..ceil(N/128)-1; the first token of
datagram k is the base address suffixed with `_k` exactly when more than
one chunk is needed; and each datagram parses as a valid message exactly
when its address token classifies as a known (non-Unknown) channel
type. -/
theorem c2_chunking (address : Str) (data : List ℚ)
    (hne : address ≠ []) (hws : ∀ c ∈ address, wsChar c = false)
    (h1 : 1 ≤ data.length) (h2 : data.length ≤ 4096) :
    (sendOSCMessage true true (fun _ => true) address data =
      (List.range ((data.length + 128 - 1) / 128)).map (fun k =>
        ⟨k, buildChunkMsg address data ((data.length + 128 - 1) / 128) k,
          true⟩)) ∧
      (sendOSCMessage true true (fun _ => true) address data).length =
        (data.length + 128 - 1) / 128 ∧
      (∀ k, k < (data.length + 128 - 1) / 128 →
        (tokens (buildChunkMsg address data ((data.length + 128 - 1) / 128)
            k)).head? =
          some (if 1 < (data.length + 128 - 1) / 128 then
            address ++ '_' :: natDigits k else address)) ∧
      (∀ k, k < (data.length + 128 - 1) / 128 →
        ((parseMessage (buildChunkMsg address data
            ((data.length + 128 - 1) / 128) k)).valid = true ↔
          getMessageType (if 1 < (data.length + 128 - 1) / 128 then
            address ++ '_' :: natDigits k else address) ≠ .Unknown)) := by
  have hmain : sendOSCMessage true true (fun _ => true) address data =
      (List.range ((data.length + 128 - 1) / 128)).map (fun k =>
        ⟨k, buildChunkMsg address data ((data.length + 128 - 1) / 128) k,
          true⟩) := by
    rw [sendOSCMessage_unfold_ok _ _ _ h1 h2,
      sendChunksAux_allOk _ _ _ _ (fun _ => rfl)]
    apply List.map_congr_left
    intro i _
    simp
  have hsamp : ∀ k, k < (data.length + 128 - 1) / 128 →
      (data.drop (k * 128)).take 128 ≠ [] := by
    intro k hk
    have hlt : k * 128 < data.length := by omega
    intro hcontra
    have := congrArg List.length hcontra
    simp only [List.length_take, List.length_drop, List.length_nil] at this
    omega
  refine ⟨hmain, by rw [hmain]; simp, ?_, ?_⟩
  · intro k hk
    rw [buildChunkMsg_eq]
    have hwf := chunkTok_wf address hne hws k ((data.length + 128 - 1) / 128)
    rw [tokens_token_space _ _ hwf.1 hwf.2]
    rfl
  · intro k hk
    rw [buildChunkMsg_eq]
    have hwf := chunkTok_wf address hne hws k ((data.length + 128 - 1) / 128)
    exact parseMessage_chunk_valid _ _ hwf.1 hwf.2 (hsamp k hk)

set_option maxRecDepth 8000 in
/-- Witness for the amended C2: default audio address, 129 samples. -/
theorem c2_chunking_witness :
    (("/audio/stream".toList : Str) ≠ [] ∧
      (∀ c ∈ ("/audio/stream".toList : Str), wsChar c = false) ∧
      1 ≤ (List.replicate 129 (0 : ℚ)).length ∧
      (List.replicate 129 (0 : ℚ)).length ≤ 4096) ∧
      (sendOSCMessage true true (fun _ => true) ("/audio/stream".toList)
          (List.replicate 129 0) =
        (List.range (((List.replicate 129 (0 : ℚ)).length + 128 - 1) / 128)).map
          (fun k => ⟨k, buildChunkMsg ("/audio/stream".toList)
            (List.replicate 129 0)
            (((List.replicate 129 (0 : ℚ)).length + 128 - 1) / 128) k,
            true⟩)) ∧
        (sendOSCMessage true true (fun _ => true) ("/audio/stream".toList)
            (List.replicate 129 0)).length =
          ((List.replicate 129 (0 : ℚ)).length + 128 - 1) / 128 ∧
        (∀ k, k < ((List.replicate 129 (0 : ℚ)).length + 128 - 1) / 128 →
          (tokens (buildChunkMsg ("/audio/stream".toList)
              (List.replicate 129 0)
              (((List.replicate 129 (0 : ℚ)).length + 128 - 1) / 128)
              k)).head? =
            some (if 1 < ((List.replicate 129 (0 : ℚ)).length + 128 - 1) / 128
              then ("/audio/stream".toList) ++ '_' :: natDigits k
              else ("/audio/stream".toList))) ∧
        (∀ k, k < ((List.replicate 129 (0 : ℚ)).length + 128 - 1) / 128 →
          ((parseMessage (buildChunkMsg ("/audio/stream".toList)
              (List.replicate 129 0)
              (((List.replicate 129 (0 : ℚ)).length + 128 - 1) / 128)
              k)).valid = true ↔
            getMessageType
              (if 1 < ((List.replicate 129 (0 : ℚ)).length + 128 - 1) / 128
                then ("/audio/stream".toList) ++ '_' :: natDigits k
                else ("/audio/stream".toList)) ≠ .Unknown)) :=
  ⟨⟨by decide, by decide, by decide, by decide⟩,
    c2_chunking ("/audio/stream".toList) (List.replicate 129 0) (by decide)
      (by decide) (by decide) (by decide)⟩

set_option maxRecDepth 8000 in
/-- C2 counterexample: a send call to the Unknown-classifying address
`/foo/bar` (129 samples, two chunks, every transmit succeeding) produces
datagrams that do NOT decode as valid messages, refuting the claim as
stated. -/
theorem c2_counterexample :
    (sendOSCMessage true true (fun _ => true) ("/foo/bar".toList)
        (List.replicate 129 0)).length = 2 ∧
      (sendOSCMessage true true (fun _ => true) ("/foo/bar".toList)
        (List.replicate 129 0)).map (fun a => (parseMessage a.msg).valid) =
        [false, false] := by
  constructor
  · decide
  · decide

/-- C8 counterexample: the wire message `/audio/x inf` is accepted as a
valid audio message whose single accepted token parses to a NON-finite
float (std::stof accepts the `inf` spelling), refuting the claim that
every accepted numeric payload token parses as a finite float. -/
theorem c8_counterexample :
    (parseMessage ("/audio/x inf".toList)).valid = true ∧
      (parseMessage ("/audio/x inf".toList)).floatData = [FVal.inf false] := by
  constructor
  · decide
  · decide

/-- C8 amended: for an audio message built from arbitrary
whitespace-free tokens, the decoded float data is exactly the tokens
std::stof accepts (possibly non-finite), in order — tokens that fail to
parse are silently skipped at token granularity without aborting the
message — and the message is valid precisely when at least one token
parsed. -/
theorem c8_token_skip (tok0 : Str) (toks : List Str)
    (hne : tok0 ≠ []) (hws : ∀ c ∈ tok0, wsChar c = false)
    (haud : getMessageType tok0 = .Audio)
    (htoks : ∀ t ∈ toks, t ≠ [] ∧ ∀ c ∈ t, wsChar c = false) :
    (parseMessage
        (tok0 ++ ' ' :: (toks.map (fun t => t ++ [' '])).flatten)).floatData =
        toks.filterMap stofF ∧
      ((parseMessage
          (tok0 ++ ' ' :: (toks.map (fun t => t ++ [' '])).flatten)).valid =
        true ↔ ∃ t ∈ toks, (stofF t).isSome = true) := by
  have hext := extractToken_token_space tok0
    ((toks.map (fun t => t ++ [' '])).flatten) hne hws
  have htk := tokens_flatten toks htoks
  simp only [parseMessage, hext, haud, tokens_cons_space, htk]
  refine ⟨by simp, ?_⟩
  constructor
  · intro hv
    by_contra hno
    push_neg at hno
    have hnil : toks.filterMap stofF = [] := by
      rw [List.filterMap_eq_nil_iff]
      intro a ha
      have := hno a ha
      simpa [Option.not_isSome_iff_eq_none] using this
    rw [hnil] at hv
    simp at hv
  · rintro ⟨t, hts, hsome⟩
    obtain ⟨v, hv⟩ := Option.isSome_iff_exists.mp hsome
    have hmem : v ∈ toks.filterMap stofF :=
      List.mem_filterMap.mpr ⟨t, hts, hv⟩
    have : toks.filterMap stofF ≠ [] := by
      intro hcontra
      rw [hcontra] at hmem
      exact absurd hmem (List.not_mem_nil v)
    simpa [List.isEmpty_iff] using this

/-- Witness for the amended C8: one parsing and one non-parsing token. -/
theorem c8_token_skip_witness :
    (("/audio/x".toList : Str) ≠ [] ∧
      (∀ c ∈ ("/audio/x".toList : Str), wsChar c = false) ∧
      getMessageType ("/audio/x".toList) = .Audio ∧
      (∀ t ∈ [['1'], ['z', 'z']], t ≠ [] ∧ ∀ c ∈ t, wsChar c = false)) ∧
      (parseMessage (("/audio/x".toList) ++ ' ' ::
          (([['1'], ['z', 'z']].map (fun t => t ++ [' '])).flatten))).floatData =
          [['1'], ['z', 'z']].filterMap stofF ∧
        ((parseMessage (("/audio/x".toList) ++ ' ' ::
            (([['1'], ['z', 'z']].map (fun t => t ++ [' '])).flatten))).valid =
          true ↔ ∃ t ∈ [['1'], ['z', 'z']], (stofF t).isSome = true) :=
  ⟨⟨by decide, by decide, by decide, by decide⟩,
    c8_token_skip ("/audio/x".toList) [['1'], ['z', 'z']] (by decide)
      (by decide) (by decide) (by decide)⟩
